import Mathlib

/-!
Verification of the math3d software renderer (src/src/math3d/math3d.h and
src/src/math3d/renderer.cpp).

The C++ float arithmetic is embedded as exact arithmetic over a linear
ordered field: the rasterizer and framebuffer are generic in the field
(instantiated at the rationals for concrete evaluation), while the matrix
constructors that use trigonometry and square roots are embedded over the
reals.  Machine `int` becomes the integers, packed 32-bit colors become
naturals, and the C cast from floating point to `int` becomes truncation
toward zero.
-/

namespace Renderer

/-- Viewport width, from the source constant W = 1280. -/
def W : ℤ := 1280

/-- Viewport height, from the source constant H = 720. -/
def H : ℤ := 720

/-- Embedding of struct vec3d: three field components. -/
structure vec3d (α : Type) where
  x : α
  y : α
  z : α
deriving DecidableEq

namespace vec3d

variable {α : Type} [LinearOrderedField α]

/-- Componentwise addition, vec3d::operator+. -/
def add (a b : vec3d α) : vec3d α := ⟨a.x + b.x, a.y + b.y, a.z + b.z⟩

/-- Componentwise subtraction, vec3d::operator-. -/
def sub (a b : vec3d α) : vec3d α := ⟨a.x - b.x, a.y - b.y, a.z - b.z⟩

/-- Scalar multiplication, vec3d::operator*. -/
def smul (a : vec3d α) (s : α) : vec3d α := ⟨a.x * s, a.y * s, a.z * s⟩

/-- Scalar division, vec3d::operator/. -/
def sdiv (a : vec3d α) (s : α) : vec3d α := ⟨a.x / s, a.y / s, a.z / s⟩

/-- Dot product, vec3d::dot. -/
def dot (a b : vec3d α) : α := a.x * b.x + a.y * b.y + a.z * b.z

/-- Cross product, vec3d::cross. -/
def cross (a b : vec3d α) : vec3d α :=
  ⟨a.y * b.z - a.z * b.y, a.z * b.x - a.x * b.z, a.x * b.y - a.y * b.x⟩

/-- Euclidean length, vec3d::length (sqrtf over the reals). -/
noncomputable def length (v : vec3d ℝ) : ℝ := Real.sqrt (v.x * v.x + v.y * v.y + v.z * v.z)

/-- Normalization, vec3d::normalized: division of the vector by its length. -/
noncomputable def normalized (v : vec3d ℝ) : vec3d ℝ := sdiv v v.length

end vec3d

/-- Embedding of struct mat4.  Field mCR is the source entry m[C][R]
(column-major storage, first index the column, second the row). -/
structure mat4 (α : Type) where
  m00 : α
  m01 : α
  m02 : α
  m03 : α
  m10 : α
  m11 : α
  m12 : α
  m13 : α
  m20 : α
  m21 : α
  m22 : α
  m23 : α
  m30 : α
  m31 : α
  m32 : α
  m33 : α

namespace mat4

variable {α : Type} [LinearOrderedField α]

/-- Point transform mat4::operator*(vec3d): homogeneous w = 1 and a
perspective divide by the resulting w. -/
def mulPoint (M : mat4 α) (v : vec3d α) : vec3d α :=
  let x := v.x * M.m00 + v.y * M.m10 + v.z * M.m20 + M.m30
  let y := v.x * M.m01 + v.y * M.m11 + v.z * M.m21 + M.m31
  let z := v.x * M.m02 + v.y * M.m12 + v.z * M.m22 + M.m32
  let w := v.x * M.m03 + v.y * M.m13 + v.z * M.m23 + M.m33
  ⟨x / w, y / w, z / w⟩

/-- Direction transform mat4::transform_dir: w = 0, no translation and no
divide. -/
def transform_dir (M : mat4 α) (v : vec3d α) : vec3d α :=
  ⟨v.x * M.m00 + v.y * M.m10 + v.z * M.m20,
   v.x * M.m01 + v.y * M.m11 + v.z * M.m21,
   v.x * M.m02 + v.y * M.m12 + v.z * M.m22⟩

end mat4

/-- Embedding of rotateY: identity with m[0][0] = c, m[2][0] = s,
m[0][2] = -s, m[2][2] = c where c = cos a and s = sin a.
Fields are listed column by column. -/
noncomputable def rotateY (a : ℝ) : mat4 ℝ :=
  ⟨Real.cos a, 0, -Real.sin a, 0,
   0, 1, 0, 0,
   Real.sin a, 0, Real.cos a, 0,
   0, 0, 0, 1⟩

/-- Embedding of perspective: starts from the zero matrix and sets
m[0][0] = f / aspect, m[1][1] = f, m[2][2] = (far + near) / (near - far),
m[2][3] = -1, m[3][2] = 2 * far * near / (near - far), with
f = 1 / tan(fov * 0.5). -/
noncomputable def perspective (fov aspect near far : ℝ) : mat4 ℝ :=
  let f := 1 / Real.tan (fov * (1 / 2))
  ⟨f / aspect, 0, 0, 0,
   0, f, 0, 0,
   0, 0, (far + near) / (near - far), -1,
   0, 0, (2 * far * near) / (near - far), 0⟩

/-- Embedding of look_at: forward, right and reorthogonalized up basis,
assembled into a world-to-camera matrix with translation entries
m[3][0] = -dot(r, eye), m[3][1] = -dot(u, eye), m[3][2] = dot(f, eye). -/
noncomputable def look_at (eye target up : vec3d ℝ) : mat4 ℝ :=
  let f := (vec3d.sub target eye).normalized
  let r := (vec3d.cross f up).normalized
  let u := vec3d.cross r f
  ⟨r.x, u.x, -f.x, 0,
   r.y, u.y, -f.y, 0,
   r.z, u.z, -f.z, 0,
   -vec3d.dot r eye, -vec3d.dot u eye, vec3d.dot f eye, 1⟩

section Raster

variable {α : Type} [LinearOrderedField α] [FloorRing α]

/-- Render state: the framebuffer fb of packed 32-bit colors and the
parallel depth buffer db, indexed by y * W + x. -/
structure RState (α : Type) where
  fb : ℕ → ℕ
  db : ℕ → α

/-- FLT_MAX, the depth-buffer clear sentinel: (2 - 2^-23) * 2^127. -/
def fltMax : α := 2 ^ 128 - 2 ^ 104

/-- Embedding of fb_clear: every pixel gets the clear color and every
depth entry gets FLT_MAX. -/
def fb_clear (color : ℕ) : RState α := ⟨fun _ => color, fun _ => fltMax⟩

/-- Embedding of fb_set: out-of-bounds coordinates return without
writing; otherwise the fragment is written at index y * W + x exactly
when its depth is strictly below the stored depth. -/
def fb_set (x y : ℤ) (depth : α) (color : ℕ) (s : RState α) : RState α :=
  if x < 0 ∨ W ≤ x ∨ y < 0 ∨ H ≤ y then s
  else
    let idx := (y * W + x).toNat
    if depth < s.db idx then
      ⟨fun j => if j = idx then color else s.fb j,
       fun j => if j = idx then depth else s.db j⟩
    else s

/-- Embedding of struct Vertex: NDC position after the divide, the depth
value kept for the depth buffer, and a packed color. -/
structure Vertex (α : Type) where
  pos : vec3d α
  depth : α
  color : ℕ

/-- Edge function: positive when p is to the left of the directed edge
a to b. -/
def edge (ax ay bx by' px py : α) : α :=
  (bx - ax) * (py - ay) - (by' - ay) * (px - ax)

/-- NDC to screen mapping, the to_screen lambda in draw_triangle. -/
def to_screen (ndc : α) (dim : ℤ) : α := (ndc * (1 / 2) + 1 / 2) * (dim : α)

/-- C cast from floating point to int: truncation toward zero. -/
def truncInt (q : α) : ℤ := if 0 ≤ q then ⌊q⌋ else ⌈q⌉

/-- C cast from floating point to uint8_t, on the in-range values used
here: truncation, reduced mod 256. -/
def toByte (q : α) : ℕ := (truncInt q).toNat % 256

/-- Screen-space orientation test of a triangle: the edge function of its
three screen-mapped vertices, as computed by draw_triangle's backface
cull and area. -/
def screenEdge (v0 v1 v2 : Vertex α) : α :=
  edge (to_screen v0.pos.x W) (to_screen (-v0.pos.y) H)
       (to_screen v1.pos.x W) (to_screen (-v1.pos.y) H)
       (to_screen v2.pos.x W) (to_screen (-v2.pos.y) H)

/-- Lower bounding-box corner: (int)max(0.f, min of the three screen
coordinates). -/
def minCoord (a b c : α) : ℤ := truncInt (max 0 (min a (min b c)))

/-- Upper bounding-box corner: (int)min((float)(dim - 1), max of the
three screen coordinates). -/
def maxCoord (lim : ℤ) (a b c : α) : ℤ := truncInt (min (lim : α) (max a (max b c)))

/-- Inclusive integer range for the rasterization loops. -/
def intRange (lo hi : ℤ) : List ℤ := (List.range (hi + 1 - lo).toNat).map (fun i => lo + i)

/-- Red channel of a packed color: (c >> 16) & 0xff. -/
def chR (c : ℕ) : ℕ := (c >>> 16) &&& 255

/-- Green channel of a packed color: (c >> 8) & 0xff. -/
def chG (c : ℕ) : ℕ := (c >>> 8) &&& 255

/-- Blue channel of a packed color: c & 0xff. -/
def chB (c : ℕ) : ℕ := c &&& 255

/-- Packing of interpolated channels: 0xFF000000 | (r << 16) | (g << 8) | b. -/
def pack (r g b : ℕ) : ℕ := 0xFF000000 ||| (r <<< 16) ||| (g <<< 8) ||| b

/-- Body of the rasterization loop for one pixel (x, y): inside test on
the three edge values, normalization by the area, interpolation of depth
and color channels, and the depth-tested store. -/
def pixelStep (sx0 sy0 sx1 sy1 sx2 sy2 area : α) (v0 v1 v2 : Vertex α)
    (x y : ℤ) (s : RState α) : RState α :=
  let px := (x : α) + 1 / 2
  let py := (y : α) + 1 / 2
  let w0 := edge sx1 sy1 sx2 sy2 px py
  let w1 := edge sx2 sy2 sx0 sy0 px py
  let w2 := edge sx0 sy0 sx1 sy1 px py
  if w0 < 0 ∨ w1 < 0 ∨ w2 < 0 then s
  else
    let b0 := w0 / area
    let b1 := w1 / area
    let b2 := w2 / area
    let depth := b0 * v0.depth + b1 * v1.depth + b2 * v2.depth
    let r := toByte (b0 * (chR v0.color : α) + b1 * (chR v1.color : α) + b2 * (chR v2.color : α))
    let g := toByte (b0 * (chG v0.color : α) + b1 * (chG v1.color : α) + b2 * (chG v2.color : α))
    let b := toByte (b0 * (chB v0.color : α) + b1 * (chB v1.color : α) + b2 * (chB v2.color : α))
    fb_set x y depth (pack r g b) s

/-- Embedding of draw_triangle: screen mapping with vertical flip,
backface cull, clamped bounding box, zero-area rejection, and the nested
pixel loops. -/
def draw_triangle (v0 v1 v2 : Vertex α) (s : RState α) : RState α :=
  let sx0 := to_screen v0.pos.x W
  let sy0 := to_screen (-v0.pos.y) H
  let sx1 := to_screen v1.pos.x W
  let sy1 := to_screen (-v1.pos.y) H
  let sx2 := to_screen v2.pos.x W
  let sy2 := to_screen (-v2.pos.y) H
  if edge sx0 sy0 sx1 sy1 sx2 sy2 ≤ 0 then s
  else
    let minx := minCoord sx0 sx1 sx2
    let maxx := maxCoord (W - 1) sx0 sx1 sx2
    let miny := minCoord sy0 sy1 sy2
    let maxy := maxCoord (H - 1) sy0 sy1 sy2
    let area := edge sx0 sy0 sx1 sy1 sx2 sy2
    if area = 0 then s
    else
      (intRange miny maxy).foldl
        (fun t y =>
          (intRange minx maxx).foldl
            (fun u x => pixelStep sx0 sy0 sx1 sy1 sx2 sy2 area v0 v1 v2 x y u) t) s

/-- One submitted fragment: the arguments of one fb_set call. -/
structure Frag (α : Type) where
  x : ℤ
  y : ℤ
  depth : α
  color : ℕ

/-- Sequential submission of a list of fragments to fb_set. -/
def applyFrags (l : List (Frag α)) (s : RState α) : RState α :=
  l.foldl (fun t fr => fb_set fr.x fr.y fr.depth fr.color t) s

end Raster

/-- Cube corner positions, the cube_verts table. -/
def cube_verts {α : Type} [LinearOrderedField α] : Fin 8 → vec3d α
  | 0 => ⟨-1, -1, -1⟩
  | 1 => ⟨1, -1, -1⟩
  | 2 => ⟨1, 1, -1⟩
  | 3 => ⟨-1, 1, -1⟩
  | 4 => ⟨-1, -1, 1⟩
  | 5 => ⟨1, -1, 1⟩
  | 6 => ⟨1, 1, 1⟩
  | 7 => ⟨-1, 1, 1⟩

/-- Per-face flat colors, the face_colors table. -/
def face_colors : Fin 6 → ℕ
  | 0 => 0xFFE74C3C
  | 1 => 0xFF3498DB
  | 2 => 0xFF2ECC71
  | 3 => 0xFFE67E22
  | 4 => 0xFFECF0F1
  | 5 => 0xFF9B59B6

/-- Quad corner indices per face, the cube_quads table. -/
def cube_quads : Fin 6 → Fin 4 → Fin 8 := fun f i =>
  match f, i with
  | 0, 0 => 0 | 0, 1 => 3 | 0, 2 => 2 | 0, 3 => 1
  | 1, 0 => 4 | 1, 1 => 5 | 1, 2 => 6 | 1, 3 => 7
  | 2, 0 => 0 | 2, 1 => 4 | 2, 2 => 7 | 2, 3 => 3
  | 3, 0 => 1 | 3, 1 => 2 | 3, 2 => 6 | 3, 3 => 5
  | 4, 0 => 0 | 4, 1 => 1 | 4, 2 => 5 | 4, 3 => 4
  | 5, 0 => 3 | 5, 1 => 7 | 5, 2 => 6 | 5, 3 => 2

/-- Face normal computed by draw_cube: cross product of the first two
edge vectors of the model-transformed corners, normalized. -/
noncomputable def faceNormal (model : mat4 ℝ) (f : Fin 6) : vec3d ℝ :=
  let fv : Fin 4 → vec3d ℝ := fun i => model.mulPoint (cube_verts (cube_quads f i))
  (vec3d.cross (vec3d.sub (fv 1) (fv 0)) (vec3d.sub (fv 2) (fv 0))).normalized

/-- Diffuse lighting term of a face: max(0.15, dot(normal, light_dir)),
with the float literal 0.15f idealized to 3/20. -/
noncomputable def diffuseOf (model : mat4 ℝ) (light : vec3d ℝ) (f : Fin 6) : ℝ :=
  max (3 / 20) (vec3d.dot (faceNormal model f) light)

/-- Flat shaded color of a face: each base channel scaled by the diffuse
term, cast to uint8_t and repacked with alpha 0xFF. -/
noncomputable def shadedOf (model : mat4 ℝ) (light : vec3d ℝ) (f : Fin 6) : ℕ :=
  pack (toByte ((chR (face_colors f) : ℝ) * diffuseOf model light f))
       (toByte ((chG (face_colors f) : ℝ) * diffuseOf model light f))
       (toByte ((chB (face_colors f) : ℝ) * diffuseOf model light f))

/-- Projection of one corner in draw_cube: the MVP product computed with
explicit w, position components divided by w, and the depth field set to
wz / ww. -/
noncomputable def projectVert (mvp : mat4 ℝ) (shaded : ℕ) (v : vec3d ℝ) : Vertex ℝ :=
  let wx := v.x * mvp.m00 + v.y * mvp.m10 + v.z * mvp.m20 + mvp.m30
  let wy := v.x * mvp.m01 + v.y * mvp.m11 + v.z * mvp.m21 + mvp.m31
  let wz := v.x * mvp.m02 + v.y * mvp.m12 + v.z * mvp.m22 + mvp.m32
  let ww := v.x * mvp.m03 + v.y * mvp.m13 + v.z * mvp.m23 + mvp.m33
  ⟨⟨wx / ww, wy / ww, wz / ww⟩, wz / ww, shaded⟩

/-- One face iteration of draw_cube: shade the face, project its four
corners, and submit the two triangles (0,1,2) and (0,2,3). -/
noncomputable def drawFace (mvp model : mat4 ℝ) (light : vec3d ℝ) (f : Fin 6)
    (s : RState ℝ) : RState ℝ :=
  let pv : Fin 4 → Vertex ℝ := fun i =>
    projectVert mvp (shadedOf model light f) (cube_verts (cube_quads f i))
  draw_triangle (pv 0) (pv 2) (pv 3) (draw_triangle (pv 0) (pv 1) (pv 2) s)

/-- Embedding of draw_cube: the six faces processed in order. -/
noncomputable def draw_cube (mvp model : mat4 ℝ) (light : vec3d ℝ) (s : RState ℝ) : RState ℝ :=
  (List.finRange 6).foldl (fun t f => drawFace mvp model light f t) s

section RasterLemmas

variable {α : Type} [LinearOrderedField α] [FloorRing α]

lemma foldl_inv {γ β : Type} (P : γ → Prop) (f : γ → β → γ)
    (hf : ∀ t b, P t → P (f t b)) :
    ∀ (l : List β) (t : γ), P t → P (l.foldl f t) := by
  intro l
  induction l with
  | nil => exact fun t h => h
  | cons b tl ih => exact fun t h => ih _ (hf t b h)

lemma fb_set_oob (x y : ℤ) (d : α) (c : ℕ) (s : RState α)
    (h : x < 0 ∨ W ≤ x ∨ y < 0 ∨ H ≤ y) : fb_set x y d c s = s := by
  unfold fb_set
  rw [if_pos h]

lemma fb_set_db_le (x y : ℤ) (d : α) (c : ℕ) (s : RState α) (j : ℕ) :
    (fb_set x y d c s).db j ≤ s.db j := by
  simp only [fb_set]
  split_ifs with h1 h2
  · exact le_refl _
  · by_cases hj : j = (y * W + x).toNat
    · subst hj
      simp [le_of_lt h2]
    · simp [hj]
  · exact le_refl _

lemma fb_set_accept (x y : ℤ) (d : α) (c : ℕ) (s : RState α)
    (hin : ¬ (x < 0 ∨ W ≤ x ∨ y < 0 ∨ H ≤ y))
    (h : d < s.db ((y * W + x).toNat)) :
    (fb_set x y d c s).fb ((y * W + x).toNat) = c ∧
    (fb_set x y d c s).db ((y * W + x).toNat) = d := by
  simp only [fb_set]
  rw [if_neg hin, if_pos h]
  exact ⟨by simp, by simp⟩

lemma fb_set_reject (x y : ℤ) (d : α) (c : ℕ) (s : RState α)
    (h : ¬ d < s.db ((y * W + x).toNat)) :
    fb_set x y d c s = s := by
  simp only [fb_set]
  split_ifs with h1
  · rfl
  · rfl

lemma fb_set_target_min (x y : ℤ) (d : α) (c : ℕ) (s : RState α)
    (hin : ¬ (x < 0 ∨ W ≤ x ∨ y < 0 ∨ H ≤ y)) :
    (fb_set x y d c s).db ((y * W + x).toNat) = min (s.db ((y * W + x).toNat)) d := by
  simp only [fb_set]
  rw [if_neg hin]
  split_ifs with h2
  · simp [min_eq_right (le_of_lt h2)]
  · rw [min_eq_left (not_lt.mp h2)]

lemma fb_set_other (x y : ℤ) (d : α) (c : ℕ) (s : RState α) (j : ℕ)
    (hj : j ≠ (y * W + x).toNat) :
    (fb_set x y d c s).fb j = s.fb j ∧ (fb_set x y d c s).db j = s.db j := by
  simp only [fb_set]
  split_ifs with h1 h2
  · exact ⟨rfl, rfl⟩
  · constructor <;> simp [hj]
  · exact ⟨rfl, rfl⟩

lemma idx_inj {x y x' y' : ℤ}
    (hx0 : 0 ≤ x) (hxW : x < W) (hy0 : 0 ≤ y) (hyH : y < H)
    (hx0' : 0 ≤ x') (hxW' : x' < W) (hy0' : 0 ≤ y') (hyH' : y' < H)
    (h : (y' * W + x').toNat = (y * W + x).toNat) : x' = x ∧ y' = y := by
  simp only [W, H] at *
  omega

lemma fb_set_cases_at (x' y' x y : ℤ) (d : α) (c : ℕ) (s : RState α)
    (hx0 : 0 ≤ x) (hxW : x < W) (hy0 : 0 ≤ y) (hyH : y < H) :
    ((fb_set x' y' d c s).fb ((y * W + x).toNat) = s.fb ((y * W + x).toNat) ∧
     (fb_set x' y' d c s).db ((y * W + x).toNat) = s.db ((y * W + x).toNat)) ∨
    (x' = x ∧ y' = y ∧
     (fb_set x' y' d c s).fb ((y * W + x).toNat) = c ∧
     (fb_set x' y' d c s).db ((y * W + x).toNat) = d) := by
  by_cases hb : x' < 0 ∨ W ≤ x' ∨ y' < 0 ∨ H ≤ y'
  · left
    rw [fb_set_oob x' y' d c s hb]
    exact ⟨rfl, rfl⟩
  · push_neg at hb
    obtain ⟨hx0', hxW', hy0', hyH'⟩ := hb
    by_cases heq : (y' * W + x').toNat = (y * W + x).toNat
    · obtain ⟨hx, hy⟩ := idx_inj hx0 hxW hy0 hyH hx0' hxW' hy0' hyH' heq
      rw [hx, hy]
      by_cases hacc : d < s.db ((y * W + x).toNat)
      · right
        refine ⟨rfl, rfl, ?_, ?_⟩
        · exact (fb_set_accept x y d c s (by push_neg; exact ⟨hx0, hxW, hy0, hyH⟩) hacc).1
        · exact (fb_set_accept x y d c s (by push_neg; exact ⟨hx0, hxW, hy0, hyH⟩) hacc).2
      · left
        rw [fb_set_reject x y d c s hacc]
        exact ⟨rfl, rfl⟩
    · left
      exact fb_set_other x' y' d c s _ (fun hh => heq (hh ▸ rfl))

lemma applyFrags_db_le (l : List (Frag α)) :
    ∀ (s : RState α) (j : ℕ), (applyFrags l s).db j ≤ s.db j := by
  induction l with
  | nil => exact fun s j => le_refl _
  | cons fr t ih =>
    intro s j
    calc (applyFrags (fr :: t) s).db j
        = (applyFrags t (fb_set fr.x fr.y fr.depth fr.color s)).db j := rfl
      _ ≤ (fb_set fr.x fr.y fr.depth fr.color s).db j := ih _ j
      _ ≤ s.db j := fb_set_db_le _ _ _ _ s j

lemma applyFrags_min (x y : ℤ)
    (hx0 : 0 ≤ x) (hxW : x < W) (hy0 : 0 ≤ y) (hyH : y < H) :
    ∀ (l : List (Frag α)) (s : RState α), ∀ fr ∈ l, fr.x = x → fr.y = y →
      (applyFrags l s).db ((y * W + x).toNat) ≤ fr.depth := by
  intro l
  induction l with
  | nil => intro s fr h; exact absurd h (List.not_mem_nil fr)
  | cons fr0 t ih =>
    intro s fr hmem hfx hfy
    rcases List.mem_cons.mp hmem with heq | hmem'
    · subst heq
      calc (applyFrags (fr :: t) s).db ((y * W + x).toNat)
          = (applyFrags t (fb_set fr.x fr.y fr.depth fr.color s)).db ((y * W + x).toNat) := rfl
        _ ≤ (fb_set fr.x fr.y fr.depth fr.color s).db ((y * W + x).toNat) :=
            applyFrags_db_le t _ _
        _ ≤ fr.depth := by
            rw [hfx, hfy]
            rw [fb_set_target_min x y fr.depth fr.color s
              (by push_neg; exact ⟨hx0, hxW, hy0, hyH⟩)]
            exact min_le_right _ _
    · exact ih _ fr hmem' hfx hfy

lemma applyFrags_correspond (x y : ℤ)
    (hx0 : 0 ≤ x) (hxW : x < W) (hy0 : 0 ≤ y) (hyH : y < H) :
    ∀ (l : List (Frag α)) (s : RState α),
      ((applyFrags l s).fb ((y * W + x).toNat) = s.fb ((y * W + x).toNat) ∧
       (applyFrags l s).db ((y * W + x).toNat) = s.db ((y * W + x).toNat)) ∨
      (∃ fr ∈ l, fr.x = x ∧ fr.y = y ∧
        (applyFrags l s).fb ((y * W + x).toNat) = fr.color ∧
        (applyFrags l s).db ((y * W + x).toNat) = fr.depth) := by
  intro l
  induction l with
  | nil => exact fun s => Or.inl ⟨rfl, rfl⟩
  | cons fr0 t ih =>
    intro s
    have hstep : applyFrags (fr0 :: t) s = applyFrags t (fb_set fr0.x fr0.y fr0.depth fr0.color s) := rfl
    rcases ih (fb_set fr0.x fr0.y fr0.depth fr0.color s) with ⟨hfb, hdb⟩ | ⟨fr, hmem, hfx, hfy, hfb, hdb⟩
    · rcases fb_set_cases_at fr0.x fr0.y x y fr0.depth fr0.color s hx0 hxW hy0 hyH with
        ⟨hfb2, hdb2⟩ | ⟨hfx0, hfy0, hfb2, hdb2⟩
      · left
        rw [hstep]
        exact ⟨hfb.trans hfb2, hdb.trans hdb2⟩
      · right
        exact ⟨fr0, List.mem_cons_self fr0 t, hfx0, hfy0, hstep ▸ (hfb.trans hfb2),
          hstep ▸ (hdb.trans hdb2)⟩
    · right
      exact ⟨fr, List.mem_cons_of_mem fr0 hmem, hfx, hfy, hstep ▸ hfb, hstep ▸ hdb⟩

lemma minCoord_nonneg (a b c : α) : 0 ≤ minCoord a b c := by
  unfold minCoord truncInt
  rw [if_pos (le_max_left 0 _)]
  exact Int.le_floor.mpr (by exact_mod_cast le_max_left (0 : α) _)

lemma maxCoord_le (lim : ℤ) (hlim : 0 ≤ lim) (a b c : α) :
    maxCoord lim a b c ≤ lim := by
  unfold maxCoord truncInt
  split_ifs with h
  · have h1 : ⌊min ((lim : α)) (max a (max b c))⌋ ≤ ⌊(lim : α)⌋ :=
      Int.floor_le_floor (min_le_left _ _)
    simpa using h1
  · exact Int.ceil_le.mpr (le_trans (not_le.mp h).le (by exact_mod_cast hlim))

lemma fb_set_high (x y : ℤ) (d : α) (c : ℕ) (s : RState α) (j : ℕ)
    (hj : (W * H).toNat ≤ j) :
    (fb_set x y d c s).fb j = s.fb j ∧ (fb_set x y d c s).db j = s.db j := by
  by_cases hb : x < 0 ∨ W ≤ x ∨ y < 0 ∨ H ≤ y
  · rw [fb_set_oob x y d c s hb]
    exact ⟨rfl, rfl⟩
  · push_neg at hb
    obtain ⟨hx0, hxW, hy0, hyH⟩ := hb
    apply fb_set_other
    simp only [W, H] at *
    omega

lemma draw_triangle_preserves (v0 v1 v2 : Vertex α) (s : RState α)
    (P : RState α → Prop)
    (hP : ∀ (x y : ℤ) (d : α) (c : ℕ) (t : RState α), P t → P (fb_set x y d c t)) :
    P s → P (draw_triangle v0 v1 v2 s) := by
  intro hs
  simp only [draw_triangle]
  split_ifs with h1 h2
  · exact hs
  · exact hs
  · refine foldl_inv P _ (fun t yy ht => foldl_inv P _ (fun u xx hu => ?_) _ t ht) _ s hs
    simp only [pixelStep]
    split_ifs with h3
    · exact hu
    · exact hP _ _ _ _ _ hu

end RasterLemmas

/-- C4: for every fov in (0, pi), aspect nonzero and 0 < near < far, the
point transform of perspective(fov, aspect, near, far) maps (0, 0, -near)
to NDC z = -1 and (0, 0, -far) to NDC z = +1, exactly in real
arithmetic. -/
theorem perspective_near_far_ndc_z (fov aspect near far : ℝ)
    (hfov0 : 0 < fov) (hfovpi : fov < Real.pi) (hasp : aspect ≠ 0)
    (hnear : 0 < near) (hnf : near < far) :
    ((perspective fov aspect near far).mulPoint ⟨0, 0, -near⟩).z = -1 ∧
    ((perspective fov aspect near far).mulPoint ⟨0, 0, -far⟩).z = 1 := by
  have hn : near ≠ 0 := ne_of_gt hnear
  have hf : far ≠ 0 := by intro h; rw [h] at hnf; linarith
  have hd : near - far ≠ 0 := sub_ne_zero.mpr (ne_of_lt hnf)
  refine ⟨?_, ?_⟩ <;>
  · simp only [perspective, mat4.mulPoint]
    field_simp
    ring

/-- C6: rotateY(a) carries cos a at entries (0,0) and (2,2), sin a at
(2,0) and -sin a at (0,2); consequently the direction transform of
rotateY(pi/2) sends (0, 0, -1) to exactly (-1, 0, 0). -/
theorem rotateY_entries_and_quarter_turn (a : ℝ) :
    (rotateY a).m00 = Real.cos a ∧ (rotateY a).m22 = Real.cos a ∧
    (rotateY a).m20 = Real.sin a ∧ (rotateY a).m02 = -Real.sin a ∧
    (rotateY (Real.pi / 2)).transform_dir ⟨0, 0, -1⟩ = ⟨-1, 0, 0⟩ := by
  refine ⟨rfl, rfl, rfl, rfl, ?_⟩
  simp [rotateY, mat4.transform_dir, Real.cos_pi_div_two, Real.sin_pi_div_two]

/-- C7: for target distinct from eye and up not parallel to the forward
direction target - eye, the point transform of look_at(eye, target, up)
sends eye itself exactly to the origin. -/
theorem look_at_eye_to_origin (eye target up : vec3d ℝ)
    (hte : target ≠ eye)
    (hpar : vec3d.cross (vec3d.sub target eye) up ≠ ⟨0, 0, 0⟩) :
    (look_at eye target up).mulPoint eye = ⟨0, 0, 0⟩ := by
  simp only [look_at, mat4.mulPoint, vec3d.dot]
  refine vec3d.mk.injEq _ _ _ _ _ _ ▸ ?_
  norm_num
  refine ⟨?_, ?_, ?_⟩ <;> ring

/-- Witness for C4 at fov = pi/2, aspect = 1, near = 1, far = 2. -/
theorem perspective_near_far_ndc_z_witness :
    ((perspective (Real.pi / 2) 1 1 2).mulPoint ⟨0, 0, -1⟩).z = -1 ∧
    ((perspective (Real.pi / 2) 1 1 2).mulPoint ⟨0, 0, -2⟩).z = 1 :=
  perspective_near_far_ndc_z (Real.pi / 2) 1 1 2
    (by positivity) (by linarith [Real.pi_pos]) (by norm_num)
    (by norm_num) (by norm_num)

/-- Witness for C7 with eye at the origin looking down -Z with up +Y. -/
theorem look_at_eye_to_origin_witness :
    (look_at ⟨0, 0, 0⟩ ⟨0, 0, -1⟩ ⟨0, 1, 0⟩).mulPoint ⟨0, 0, 0⟩ = ⟨0, 0, 0⟩ :=
  look_at_eye_to_origin ⟨0, 0, 0⟩ ⟨0, 0, -1⟩ ⟨0, 1, 0⟩
    (by simp [vec3d.mk.injEq])
    (by simp [vec3d.cross, vec3d.sub, vec3d.mk.injEq])

/-- C2: a triangle whose screen-space edge function is at most zero
(wound clockwise in screen space, or degenerate with zero area) is
discarded by draw_triangle before any pixel work: the framebuffer and
the depth buffer are returned entirely unchanged. -/
theorem draw_triangle_backface_noop {α : Type} [LinearOrderedField α] [FloorRing α]
    (v0 v1 v2 : Vertex α) (s : RState α)
    (h : screenEdge v0 v1 v2 ≤ 0) : draw_triangle v0 v1 v2 s = s := by
  have h' : edge (to_screen v0.pos.x W) (to_screen (-v0.pos.y) H)
      (to_screen v1.pos.x W) (to_screen (-v1.pos.y) H)
      (to_screen v2.pos.x W) (to_screen (-v2.pos.y) H) ≤ 0 := h
  simp only [draw_triangle]
  rw [if_pos h']

/-- Witness for C2: a degenerate triangle (all vertices coincide) leaves
the cleared render state untouched. -/
theorem draw_triangle_backface_noop_witness :
    draw_triangle ⟨⟨0, 0, 0⟩, 0, 0⟩ ⟨⟨0, 0, 0⟩, 0, 0⟩ ⟨⟨0, 0, 0⟩, 0, 0⟩
      (fb_clear 0 : RState ℚ) = fb_clear 0 :=
  draw_triangle_backface_noop _ _ _ _ (by simp [screenEdge, edge])

/-- C5: the three edge values of a point against a triangle's edges sum
to the triangle's total edge value (twice its signed area); hence for a
point passing the inside test (all three values non-negative) against a
triangle of strictly positive area, the weights normalized by the area
are each non-negative and sum exactly to 1. -/
theorem barycentric_weights_sum_one {α : Type} [LinearOrderedField α] [FloorRing α]
    (sx0 sy0 sx1 sy1 sx2 sy2 px py : α) :
    edge sx1 sy1 sx2 sy2 px py + edge sx2 sy2 sx0 sy0 px py + edge sx0 sy0 sx1 sy1 px py
      = edge sx0 sy0 sx1 sy1 sx2 sy2 ∧
    (0 < edge sx0 sy0 sx1 sy1 sx2 sy2 →
      0 ≤ edge sx1 sy1 sx2 sy2 px py →
      0 ≤ edge sx2 sy2 sx0 sy0 px py →
      0 ≤ edge sx0 sy0 sx1 sy1 px py →
      0 ≤ edge sx1 sy1 sx2 sy2 px py / edge sx0 sy0 sx1 sy1 sx2 sy2 ∧
      0 ≤ edge sx2 sy2 sx0 sy0 px py / edge sx0 sy0 sx1 sy1 sx2 sy2 ∧
      0 ≤ edge sx0 sy0 sx1 sy1 px py / edge sx0 sy0 sx1 sy1 sx2 sy2 ∧
      edge sx1 sy1 sx2 sy2 px py / edge sx0 sy0 sx1 sy1 sx2 sy2
        + edge sx2 sy2 sx0 sy0 px py / edge sx0 sy0 sx1 sy1 sx2 sy2
        + edge sx0 sy0 sx1 sy1 px py / edge sx0 sy0 sx1 sy1 sx2 sy2 = 1) := by
  have hid : edge sx1 sy1 sx2 sy2 px py + edge sx2 sy2 sx0 sy0 px py
      + edge sx0 sy0 sx1 sy1 px py = edge sx0 sy0 sx1 sy1 sx2 sy2 := by
    unfold edge; ring
  refine ⟨hid, fun hpos h0 h1 h2 =>
    ⟨div_nonneg h0 hpos.le, div_nonneg h1 hpos.le, div_nonneg h2 hpos.le, ?_⟩⟩
  rw [div_add_div_same, div_add_div_same, hid, div_self (ne_of_gt hpos)]

/-- Witness for C5: the point (1, 1) inside the screen triangle
(0,0), (10,0), (0,10) of positive area. -/
theorem barycentric_weights_sum_one_witness :
    edge (α := ℚ) 10 0 0 10 1 1 / edge 0 0 10 0 0 10
      + edge 0 10 0 0 1 1 / edge 0 0 10 0 0 10
      + edge 0 0 10 0 1 1 / edge 0 0 10 0 0 10 = 1 :=
  ((barycentric_weights_sum_one 0 0 10 0 0 10 1 1).2
    (by norm_num [edge]) (by norm_num [edge]) (by norm_num [edge])
    (by norm_num [edge])).2.2.2

/-- C10: fb_set returns without writing for any out-of-bounds
coordinate; the rasterization bounding box is clamped into
[0, W-1] x [0, H-1]; and draw_triangle leaves every buffer entry at
index at least W * H untouched, so all writes land inside [0, W * H). -/
theorem raster_never_out_of_bounds {α : Type} [LinearOrderedField α] [FloorRing α] :
    (∀ (x y : ℤ) (d : α) (c : ℕ) (s : RState α),
        x < 0 ∨ W ≤ x ∨ y < 0 ∨ H ≤ y → fb_set x y d c s = s) ∧
    (∀ a b c : α, 0 ≤ minCoord a b c ∧ maxCoord (W - 1) a b c ≤ W - 1 ∧
        maxCoord (H - 1) a b c ≤ H - 1) ∧
    (∀ (v0 v1 v2 : Vertex α) (s : RState α) (j : ℕ), (W * H).toNat ≤ j →
        (draw_triangle v0 v1 v2 s).fb j = s.fb j ∧
        (draw_triangle v0 v1 v2 s).db j = s.db j) := by
  refine ⟨fb_set_oob, ?_, ?_⟩
  · intro a b c
    exact ⟨minCoord_nonneg a b c, maxCoord_le _ (by decide) a b c,
      maxCoord_le _ (by decide) a b c⟩
  · intro v0 v1 v2 s j hj
    exact draw_triangle_preserves v0 v1 v2 s
      (fun t => t.fb j = s.fb j ∧ t.db j = s.db j)
      (fun x y d c t ht => ⟨((fb_set_high x y d c t j hj).1).trans ht.1,
        ((fb_set_high x y d c t j hj).2).trans ht.2⟩) ⟨rfl, rfl⟩

/-- Witness for C10: a store at x = -1 is dropped, and a degenerate
triangle leaves the first entry past the buffer end untouched. -/
theorem raster_never_out_of_bounds_witness :
    fb_set (-1) 0 (0 : ℚ) 5 (fb_clear 0) = fb_clear 0 ∧
    (draw_triangle ⟨⟨0, 0, 0⟩, 0, 0⟩ ⟨⟨0, 0, 0⟩, 0, 0⟩ ⟨⟨0, 0, 0⟩, 0, 0⟩
        (fb_clear 0 : RState ℚ)).fb 921600 = (fb_clear 0 : RState ℚ).fb 921600 :=
  ⟨(raster_never_out_of_bounds (α := ℚ)).1 (-1) 0 0 5 (fb_clear 0) (by decide),
   ((raster_never_out_of_bounds (α := ℚ)).2.2 _ _ _ (fb_clear 0) 921600 (by decide)).1⟩

/-- C3: for every in-bounds pixel, fb_set writes both buffers at index
y * W + x exactly when the supplied depth is strictly below the stored
one, is the identity otherwise, touches no other buffer entry, leaves
the stored depth equal to min(old, submitted); and along any sequence
of fragment submissions, the stored color at the pixel is the one that
arrived with the stored depth, which is a lower bound of all depths
submitted to that pixel. -/
theorem fb_set_depth_test_semantics {α : Type} [LinearOrderedField α] [FloorRing α]
    (s : RState α) (x y : ℤ) (d : α) (c : ℕ)
    (hx0 : 0 ≤ x) (hxW : x < W) (hy0 : 0 ≤ y) (hyH : y < H) :
    (d < s.db ((y * W + x).toNat) →
      (fb_set x y d c s).db ((y * W + x).toNat) = d ∧
      (fb_set x y d c s).fb ((y * W + x).toNat) = c) ∧
    (¬ d < s.db ((y * W + x).toNat) → fb_set x y d c s = s) ∧
    (∀ j : ℕ, j ≠ (y * W + x).toNat →
      (fb_set x y d c s).fb j = s.fb j ∧ (fb_set x y d c s).db j = s.db j) ∧
    (fb_set x y d c s).db ((y * W + x).toNat) = min (s.db ((y * W + x).toNat)) d ∧
    (∀ l : List (Frag α),
      ((applyFrags l s).fb ((y * W + x).toNat) = s.fb ((y * W + x).toNat) ∧
       (applyFrags l s).db ((y * W + x).toNat) = s.db ((y * W + x).toNat)) ∨
      ∃ fr ∈ l, fr.x = x ∧ fr.y = y ∧
        (applyFrags l s).fb ((y * W + x).toNat) = fr.color ∧
        (applyFrags l s).db ((y * W + x).toNat) = fr.depth) ∧
    (∀ (l : List (Frag α)), ∀ fr ∈ l, fr.x = x → fr.y = y →
      (applyFrags l s).db ((y * W + x).toNat) ≤ fr.depth) := by
  have hin : ¬ (x < 0 ∨ W ≤ x ∨ y < 0 ∨ H ≤ y) := by
    push_neg; exact ⟨hx0, hxW, hy0, hyH⟩
  refine ⟨?_, fb_set_reject x y d c s, fun j hj => fb_set_other x y d c s j hj,
    fb_set_target_min x y d c s hin,
    fun l => applyFrags_correspond x y hx0 hxW hy0 hyH l s,
    fun l => applyFrags_min x y hx0 hxW hy0 hyH l s⟩
  intro h
  exact ⟨(fb_set_accept x y d c s hin h).2, (fb_set_accept x y d c s hin h).1⟩

/-- Witness for C3: a store at in-bounds pixel (3, 2) into a cleared
buffer leaves min(FLT_MAX, 1/2) in the depth buffer. -/
theorem fb_set_depth_test_semantics_witness :
    (fb_set 3 2 ((1 : ℚ)/2) 7 (fb_clear 0)).db ((2 * W + 3).toNat)
      = min ((fb_clear 0 : RState ℚ).db ((2 * W + 3).toNat)) (1/2) :=
  (fb_set_depth_test_semantics (fb_clear 0) 3 2 (1/2) 7
    (by decide) (by decide) (by decide) (by decide)).2.2.2.1

/-- C1 counterexample: two fragments submitted in order to pixel (0, 0)
with exactly equal depth 3/10; the claim says the second color (2) wins
the tie, but the strict depth test keeps the first color (1). -/
theorem depth_tie_counterexample :
    (fb_set 0 0 ((3 : ℚ)/10) 2 (fb_set 0 0 ((3 : ℚ)/10) 1 (fb_clear 0))).fb
        ((0 * W + 0).toNat) = 1 ∧
    (fb_set 0 0 ((3 : ℚ)/10) 2 (fb_set 0 0 ((3 : ℚ)/10) 1 (fb_clear 0))).fb
        ((0 * W + 0).toNat) ≠ 2 := by
  have hin : ¬ ((0 : ℤ) < 0 ∨ W ≤ (0 : ℤ) ∨ (0 : ℤ) < 0 ∨ H ≤ (0 : ℤ)) := by decide
  have hflt : ((3 : ℚ)/10) < (fb_clear 0 : RState ℚ).db ((0 * W + 0).toNat) := by
    norm_num [fb_clear, fltMax]
  have hfirst := fb_set_accept 0 0 ((3 : ℚ)/10) 1 (fb_clear 0) hin hflt
  have hrej : ¬ ((3 : ℚ)/10) <
      (fb_set 0 0 ((3 : ℚ)/10) 1 (fb_clear 0)).db ((0 * W + 0).toNat) := by
    rw [fb_set_target_min 0 0 ((3 : ℚ)/10) 1 (fb_clear 0) hin]
    exact not_lt.mpr (min_le_right _ _)
  rw [fb_set_reject 0 0 ((3 : ℚ)/10) 2 _ hrej, hfirst.1]
  exact ⟨rfl, by norm_num⟩

/-- C1 (amended): on an exactly equal depth the FIRST write wins: the
second fragment is discarded by the strict test, and when the first was
accepted the final color is T1's; when T2's depth is strictly smaller
than T1's and than the prior stored depth, the final color is T2's
regardless of draw order. -/
theorem depth_tie_first_wins_near_wins {α : Type} [LinearOrderedField α] [FloorRing α]
    (s : RState α) (x y : ℤ) (d d1 d2 : α) (c1 c2 : ℕ)
    (hx0 : 0 ≤ x) (hxW : x < W) (hy0 : 0 ≤ y) (hyH : y < H) :
    fb_set x y d c2 (fb_set x y d c1 s) = fb_set x y d c1 s ∧
    (d < s.db ((y * W + x).toNat) →
      (fb_set x y d c2 (fb_set x y d c1 s)).fb ((y * W + x).toNat) = c1) ∧
    (d2 < d1 → d2 < s.db ((y * W + x).toNat) →
      (fb_set x y d2 c2 (fb_set x y d1 c1 s)).fb ((y * W + x).toNat) = c2 ∧
      (fb_set x y d1 c1 (fb_set x y d2 c2 s)).fb ((y * W + x).toNat) = c2) := by
  have hin : ¬ (x < 0 ∨ W ≤ x ∨ y < 0 ∨ H ≤ y) := by
    push_neg; exact ⟨hx0, hxW, hy0, hyH⟩
  have hminle : ∀ (dd : α) (cc : ℕ),
      ¬ dd < (fb_set x y dd cc s).db ((y * W + x).toNat) := by
    intro dd cc
    rw [fb_set_target_min x y dd cc s hin]
    exact not_lt.mpr (min_le_right _ _)
  refine ⟨fb_set_reject x y d c2 _ (hminle d c1), ?_, ?_⟩
  · intro h
    rw [fb_set_reject x y d c2 _ (hminle d c1)]
    exact (fb_set_accept x y d c1 s hin h).1
  · intro h12 h2s
    constructor
    · have hlt : d2 < (fb_set x y d1 c1 s).db ((y * W + x).toNat) := by
        rw [fb_set_target_min x y d1 c1 s hin]
        exact lt_min h2s h12
      exact (fb_set_accept x y d2 c2 _ hin hlt).1
    · have hacc := fb_set_accept x y d2 c2 s hin h2s
      have hrej : ¬ d1 < (fb_set x y d2 c2 s).db ((y * W + x).toNat) := by
        rw [hacc.2]
        exact not_lt.mpr (le_of_lt h12)
      rw [fb_set_reject x y d1 c1 _ hrej]
      exact hacc.1

/-- Witness for C1 (amended): depth 1/10 after depth 9/10 at pixel
(0, 0) of a cleared buffer ends with the nearer fragment's color. -/
theorem depth_tie_first_wins_near_wins_witness :
    (fb_set 0 0 ((1 : ℚ)/10) 9 (fb_set 0 0 ((9 : ℚ)/10) 8 (fb_clear 0))).fb
      ((0 * W + 0).toNat) = 9 :=
  ((depth_tie_first_wins_near_wins (fb_clear 0) 0 0 0 ((9 : ℚ)/10) ((1 : ℚ)/10) 8 9
    (by decide) (by decide) (by decide) (by decide)).2.2 (by norm_num)
    (by norm_num [fb_clear, fltMax])).1

section CubeLemmas

variable {α : Type} [LinearOrderedField α] [FloorRing α]

lemma edge_sum (sx0 sy0 sx1 sy1 sx2 sy2 px py : α) :
    edge sx1 sy1 sx2 sy2 px py + edge sx2 sy2 sx0 sy0 px py + edge sx0 sy0 sx1 sy1 px py
      = edge sx0 sy0 sx1 sy1 sx2 sy2 := by
  unfold edge; ring

lemma chR_lt (c : ℕ) : chR c < 256 := lt_of_le_of_lt Nat.and_le_right (by norm_num)

lemma chG_lt (c : ℕ) : chG c < 256 := lt_of_le_of_lt Nat.and_le_right (by norm_num)

lemma chB_lt (c : ℕ) : chB c < 256 := lt_of_le_of_lt Nat.and_le_right (by norm_num)

lemma or_add_disjoint (a b : ℕ) (k : ℕ) (hb : b < 2 ^ k) :
    a * 2 ^ k ||| b = a * 2 ^ k + b := by
  rw [Nat.mul_comm]
  exact (Nat.mul_add_lt_is_or hb a).symm

lemma pack_eq_add {r g b : ℕ} (hr : r < 256) (hg : g < 256) (hb : b < 256) :
    pack r g b = 4278190080 + (65536 * r + (256 * g + b)) := by
  unfold pack
  rw [Nat.or_assoc, Nat.or_assoc, Nat.shiftLeft_eq, Nat.shiftLeft_eq]
  have hgb : g * 2 ^ 8 ||| b = g * 2 ^ 8 + b := or_add_disjoint g b 8 (by omega)
  rw [hgb]
  have hrgb : r * 2 ^ 16 ||| (g * 2 ^ 8 + b) = r * 2 ^ 16 + (g * 2 ^ 8 + b) :=
    or_add_disjoint r (g * 2 ^ 8 + b) 16 (by omega)
  rw [hrgb]
  have ha : (4278190080 : ℕ) = 255 * 2 ^ 24 := by norm_num
  rw [ha, or_add_disjoint 255 (r * 2 ^ 16 + (g * 2 ^ 8 + b)) 24 (by omega)]
  omega

lemma chR_pack {r g b : ℕ} (hr : r < 256) (hg : g < 256) (hb : b < 256) :
    chR (pack r g b) = r := by
  rw [pack_eq_add hr hg hb]
  unfold chR
  rw [Nat.shiftRight_eq_div_pow]
  have h255 : (255 : ℕ) = 2 ^ 8 - 1 := by norm_num
  rw [h255, Nat.and_pow_two_sub_one_eq_mod]
  omega

lemma chG_pack {r g b : ℕ} (hr : r < 256) (hg : g < 256) (hb : b < 256) :
    chG (pack r g b) = g := by
  rw [pack_eq_add hr hg hb]
  unfold chG
  rw [Nat.shiftRight_eq_div_pow]
  have h255 : (255 : ℕ) = 2 ^ 8 - 1 := by norm_num
  rw [h255, Nat.and_pow_two_sub_one_eq_mod]
  omega

lemma chB_pack {r g b : ℕ} (hr : r < 256) (hg : g < 256) (hb : b < 256) :
    chB (pack r g b) = b := by
  rw [pack_eq_add hr hg hb]
  unfold chB
  have h255 : (255 : ℕ) = 2 ^ 8 - 1 := by norm_num
  rw [h255, Nat.and_pow_two_sub_one_eq_mod]
  omega

lemma toByte_natCast (n : ℕ) : toByte ((n : α)) = n % 256 := by
  unfold toByte truncInt
  rw [if_pos (Nat.cast_nonneg n)]
  simp

lemma toByte_lt (q : α) : toByte q < 256 := Nat.mod_lt _ (by norm_num)

lemma toByte_in_range {q : α} (h0 : 0 ≤ q) (h255 : q ≤ 255) :
    toByte q = (⌊q⌋).toNat ∧ (⌊q⌋).toNat < 256 := by
  unfold toByte truncInt
  rw [if_pos h0]
  have hf : ⌊q⌋ ≤ 255 := by
    have h1 : ⌊q⌋ ≤ ⌊(255 : α)⌋ := Int.floor_le_floor h255
    simpa using h1
  exact ⟨Nat.mod_eq_of_lt (by omega), by omega⟩

lemma fb_set_writes_only (x y : ℤ) (d : α) (c : ℕ) (t : RState α) (j : ℕ) :
    (fb_set x y d c t).fb j = t.fb j ∨ (fb_set x y d c t).fb j = c := by
  simp only [fb_set]
  split_ifs with h1 h2
  · left; rfl
  · by_cases hj : j = (y * W + x).toNat
    · right; simp [hj]
    · left; simp [hj]
  · left; rfl

lemma pixelStep_writes_only (sx0 sy0 sx1 sy1 sx2 sy2 area : α) (v0 v1 v2 : Vertex α)
    (x y : ℤ) (u : RState α) (c : ℕ)
    (h0 : v0.color = c) (h1 : v1.color = c) (h2 : v2.color = c)
    (hsum : edge sx1 sy1 sx2 sy2 ((x : α) + 1 / 2) ((y : α) + 1 / 2)
          + edge sx2 sy2 sx0 sy0 ((x : α) + 1 / 2) ((y : α) + 1 / 2)
          + edge sx0 sy0 sx1 sy1 ((x : α) + 1 / 2) ((y : α) + 1 / 2) = area)
    (hne : area ≠ 0)
    (hc : pack (chR c) (chG c) (chB c) = c) (j : ℕ) :
    (pixelStep sx0 sy0 sx1 sy1 sx2 sy2 area v0 v1 v2 x y u).fb j = u.fb j ∨
    (pixelStep sx0 sy0 sx1 sy1 sx2 sy2 area v0 v1 v2 x y u).fb j = c := by
  simp only [pixelStep, h0, h1, h2]
  split_ifs with hskip
  · left; rfl
  · have hch : ∀ ch : ℕ,
        edge sx1 sy1 sx2 sy2 ((x : α) + 1 / 2) ((y : α) + 1 / 2) / area * (ch : α)
        + edge sx2 sy2 sx0 sy0 ((x : α) + 1 / 2) ((y : α) + 1 / 2) / area * (ch : α)
        + edge sx0 sy0 sx1 sy1 ((x : α) + 1 / 2) ((y : α) + 1 / 2) / area * (ch : α)
        = (ch : α) := by
      intro ch
      have hfold :
          edge sx1 sy1 sx2 sy2 ((x : α) + 1 / 2) ((y : α) + 1 / 2) / area * (ch : α)
          + edge sx2 sy2 sx0 sy0 ((x : α) + 1 / 2) ((y : α) + 1 / 2) / area * (ch : α)
          + edge sx0 sy0 sx1 sy1 ((x : α) + 1 / 2) ((y : α) + 1 / 2) / area * (ch : α)
          = (edge sx1 sy1 sx2 sy2 ((x : α) + 1 / 2) ((y : α) + 1 / 2)
            + edge sx2 sy2 sx0 sy0 ((x : α) + 1 / 2) ((y : α) + 1 / 2)
            + edge sx0 sy0 sx1 sy1 ((x : α) + 1 / 2) ((y : α) + 1 / 2)) / area * (ch : α) := by
        ring
      rw [hfold, hsum, div_self hne, one_mul]
    rw [hch (chR c), hch (chG c), hch (chB c),
      toByte_natCast, toByte_natCast, toByte_natCast,
      Nat.mod_eq_of_lt (chR_lt c), Nat.mod_eq_of_lt (chG_lt c),
      Nat.mod_eq_of_lt (chB_lt c), hc]
    exact fb_set_writes_only x y _ c u j

lemma draw_triangle_writes_only (v0 v1 v2 : Vertex α) (c : ℕ) (s : RState α)
    (h0 : v0.color = c) (h1 : v1.color = c) (h2 : v2.color = c)
    (hc : pack (chR c) (chG c) (chB c) = c) (j : ℕ) :
    (draw_triangle v0 v1 v2 s).fb j = s.fb j ∨ (draw_triangle v0 v1 v2 s).fb j = c := by
  simp only [draw_triangle]
  split_ifs with hcull harea
  · left; rfl
  · left; rfl
  · refine foldl_inv (fun t : RState α => t.fb j = s.fb j ∨ t.fb j = c) _
      (fun t yy ht => foldl_inv (fun t : RState α => t.fb j = s.fb j ∨ t.fb j = c) _
        (fun u xx hu => ?_) _ t ht) _ s (Or.inl rfl)
    rcases pixelStep_writes_only (to_screen v0.pos.x W) (to_screen (-v0.pos.y) H)
        (to_screen v1.pos.x W) (to_screen (-v1.pos.y) H)
        (to_screen v2.pos.x W) (to_screen (-v2.pos.y) H)
        (edge (to_screen v0.pos.x W) (to_screen (-v0.pos.y) H) (to_screen v1.pos.x W)
          (to_screen (-v1.pos.y) H) (to_screen v2.pos.x W) (to_screen (-v2.pos.y) H))
        v0 v1 v2 xx yy u c h0 h1 h2 (edge_sum _ _ _ _ _ _ _ _) harea hc j with he | he
    · rcases hu with hu | hu
      · left; rw [he, hu]
      · right; rw [he, hu]
    · right; exact he

lemma dot_normalized_self_le_one (v : vec3d ℝ) :
    vec3d.dot v.normalized v.normalized ≤ 1 := by
  unfold vec3d.normalized vec3d.sdiv vec3d.length vec3d.dot
  dsimp only
  have hq : (0 : ℝ) ≤ v.x * v.x + v.y * v.y + v.z * v.z :=
    add_nonneg (add_nonneg (mul_self_nonneg _) (mul_self_nonneg _)) (mul_self_nonneg _)
  have hL : Real.sqrt (v.x * v.x + v.y * v.y + v.z * v.z)
      * Real.sqrt (v.x * v.x + v.y * v.y + v.z * v.z)
      = v.x * v.x + v.y * v.y + v.z * v.z := Real.mul_self_sqrt hq
  have hrw : v.x / Real.sqrt (v.x * v.x + v.y * v.y + v.z * v.z)
        * (v.x / Real.sqrt (v.x * v.x + v.y * v.y + v.z * v.z))
      + v.y / Real.sqrt (v.x * v.x + v.y * v.y + v.z * v.z)
        * (v.y / Real.sqrt (v.x * v.x + v.y * v.y + v.z * v.z))
      + v.z / Real.sqrt (v.x * v.x + v.y * v.y + v.z * v.z)
        * (v.z / Real.sqrt (v.x * v.x + v.y * v.y + v.z * v.z))
      = (v.x * v.x + v.y * v.y + v.z * v.z)
        / (Real.sqrt (v.x * v.x + v.y * v.y + v.z * v.z)
          * Real.sqrt (v.x * v.x + v.y * v.y + v.z * v.z)) := by
    ring
  rw [hrw, hL]
  rcases eq_or_lt_of_le hq with h0 | hpos
  · rw [← h0]
    norm_num
  · rw [div_self (ne_of_gt hpos)]

lemma dot_le_one_of (n l : vec3d ℝ) (hn : vec3d.dot n n ≤ 1)
    (hl : vec3d.dot l l = 1) : vec3d.dot n l ≤ 1 := by
  simp only [vec3d.dot] at hn hl ⊢
  nlinarith [sq_nonneg (n.x * l.y - n.y * l.x), sq_nonneg (n.x * l.z - n.z * l.x),
    sq_nonneg (n.y * l.z - n.z * l.y),
    sq_nonneg (n.x * l.x + n.y * l.y + n.z * l.z - 1)]

lemma diffuseOf_ge (model : mat4 ℝ) (light : vec3d ℝ) (f : Fin 6) :
    (3 : ℝ) / 20 ≤ diffuseOf model light f := le_max_left _ _

lemma diffuseOf_le_one (model : mat4 ℝ) (light : vec3d ℝ) (f : Fin 6)
    (hl : vec3d.dot light light = 1) : diffuseOf model light f ≤ 1 := by
  unfold diffuseOf
  apply max_le (by norm_num)
  refine dot_le_one_of _ light ?_ hl
  unfold faceNormal
  exact dot_normalized_self_le_one _

end CubeLemmas

/-- C9: draw_cube processes the six faces in submission order; each face
is exactly the two draw_triangle calls with corner orders (0,1,2) and
(0,2,3) on the MVP-projected corners; every projected vertex's position
equals the full matrix point transform of the corner, and its retained
depth field equals its own post-divide NDC z component wz / ww, which is
exactly pos.z. -/
theorem draw_cube_two_triangles_post_divide_depth
    (mvp model : mat4 ℝ) (light : vec3d ℝ) (s : RState ℝ) (f : Fin 6) :
    draw_cube mvp model light s =
      drawFace mvp model light 5 (drawFace mvp model light 4 (drawFace mvp model light 3
        (drawFace mvp model light 2 (drawFace mvp model light 1
          (drawFace mvp model light 0 s))))) ∧
    drawFace mvp model light f s =
      draw_triangle (projectVert mvp (shadedOf model light f) (cube_verts (cube_quads f 0)))
        (projectVert mvp (shadedOf model light f) (cube_verts (cube_quads f 2)))
        (projectVert mvp (shadedOf model light f) (cube_verts (cube_quads f 3)))
        (draw_triangle (projectVert mvp (shadedOf model light f) (cube_verts (cube_quads f 0)))
          (projectVert mvp (shadedOf model light f) (cube_verts (cube_quads f 1)))
          (projectVert mvp (shadedOf model light f) (cube_verts (cube_quads f 2))) s) ∧
    (∀ (c : ℕ) (v : vec3d ℝ),
      (projectVert mvp c v).pos = mvp.mulPoint v ∧
      (projectVert mvp c v).depth = (projectVert mvp c v).pos.z ∧
      (projectVert mvp c v).depth =
        (v.x * mvp.m02 + v.y * mvp.m12 + v.z * mvp.m22 + mvp.m32) /
        (v.x * mvp.m03 + v.y * mvp.m13 + v.z * mvp.m23 + mvp.m33)) :=
  ⟨rfl, rfl, fun c v => ⟨rfl, rfl, rfl⟩⟩

/-- C8: for a unit light direction, the flat shaded color of every face
has each channel equal to the base channel scaled by the diffuse term
max(0.15, dot(normal, light)) and truncated (a true floor, no 8-bit
wraparound, because the diffuse term is at most 1); the diffuse term is
at least 0.15, so a base channel at or above the truncation threshold
keeps a nonzero shaded channel; and each face's two triangles write no
framebuffer value other than that single shaded color. -/
theorem draw_cube_flat_shading (model : mat4 ℝ) (light : vec3d ℝ) (f : Fin 6)
    (hl : vec3d.dot light light = 1) :
    shadedOf model light f =
      pack (⌊(chR (face_colors f) : ℝ) * diffuseOf model light f⌋).toNat
           (⌊(chG (face_colors f) : ℝ) * diffuseOf model light f⌋).toNat
           (⌊(chB (face_colors f) : ℝ) * diffuseOf model light f⌋).toNat ∧
    diffuseOf model light f = max (3 / 20) (vec3d.dot (faceNormal model f) light) ∧
    (3 : ℝ) / 20 ≤ diffuseOf model light f ∧
    ((1 : ℝ) ≤ (chR (face_colors f) : ℝ) * (3 / 20) →
      1 ≤ (⌊(chR (face_colors f) : ℝ) * diffuseOf model light f⌋).toNat) ∧
    (∀ (mvp : mat4 ℝ) (s : RState ℝ) (j : ℕ),
      (drawFace mvp model light f s).fb j = s.fb j ∨
      (drawFace mvp model light f s).fb j = shadedOf model light f) := by
  have hd0 : (0 : ℝ) ≤ diffuseOf model light f :=
    le_trans (by norm_num) (diffuseOf_ge model light f)
  have hd1 : diffuseOf model light f ≤ 1 := diffuseOf_le_one model light f hl
  have hbound : ∀ ch : ℕ, ch < 256 →
      0 ≤ (ch : ℝ) * diffuseOf model light f ∧ (ch : ℝ) * diffuseOf model light f ≤ 255 := by
    intro ch hch
    constructor
    · positivity
    · have h1 : (ch : ℝ) ≤ 255 := by exact_mod_cast Nat.lt_succ_iff.mp hch
      have h2 := mul_le_mul h1 hd1 hd0 (by norm_num : (0 : ℝ) ≤ 255)
      simpa using h2
  obtain ⟨hbr0, hbr1⟩ := hbound (chR (face_colors f)) (chR_lt _)
  obtain ⟨hbg0, hbg1⟩ := hbound (chG (face_colors f)) (chG_lt _)
  obtain ⟨hbb0, hbb1⟩ := hbound (chB (face_colors f)) (chB_lt _)
  refine ⟨?_, rfl, diffuseOf_ge model light f, ?_, ?_⟩
  · unfold shadedOf
    rw [(toByte_in_range hbr0 hbr1).1, (toByte_in_range hbg0 hbg1).1,
      (toByte_in_range hbb0 hbb1).1]
  · intro hch
    have hmul : (1 : ℝ) ≤ (chR (face_colors f) : ℝ) * diffuseOf model light f := by
      calc (1 : ℝ) ≤ (chR (face_colors f) : ℝ) * (3 / 20) := hch
        _ ≤ (chR (face_colors f) : ℝ) * diffuseOf model light f := by
          apply mul_le_mul_of_nonneg_left (diffuseOf_ge model light f) (by positivity)
    have hfl : (1 : ℤ) ≤ ⌊(chR (face_colors f) : ℝ) * diffuseOf model light f⌋ :=
      Int.le_floor.mpr (by exact_mod_cast hmul)
    omega
  · intro mvp s j
    have hpk : pack (chR (shadedOf model light f)) (chG (shadedOf model light f))
        (chB (shadedOf model light f)) = shadedOf model light f := by
      conv_lhs => rw [shadedOf]
      rw [chR_pack (toByte_lt _) (toByte_lt _) (toByte_lt _),
        chG_pack (toByte_lt _) (toByte_lt _) (toByte_lt _),
        chB_pack (toByte_lt _) (toByte_lt _) (toByte_lt _)]
      rfl
    have hinner := fun jj => draw_triangle_writes_only
      (projectVert mvp (shadedOf model light f) (cube_verts (cube_quads f 0)))
      (projectVert mvp (shadedOf model light f) (cube_verts (cube_quads f 1)))
      (projectVert mvp (shadedOf model light f) (cube_verts (cube_quads f 2)))
      (shadedOf model light f) s rfl rfl rfl hpk jj
    have houter := draw_triangle_writes_only
      (projectVert mvp (shadedOf model light f) (cube_verts (cube_quads f 0)))
      (projectVert mvp (shadedOf model light f) (cube_verts (cube_quads f 2)))
      (projectVert mvp (shadedOf model light f) (cube_verts (cube_quads f 3)))
      (shadedOf model light f)
      (draw_triangle (projectVert mvp (shadedOf model light f) (cube_verts (cube_quads f 0)))
        (projectVert mvp (shadedOf model light f) (cube_verts (cube_quads f 1)))
        (projectVert mvp (shadedOf model light f) (cube_verts (cube_quads f 2))) s)
      rfl rfl rfl hpk j
    rcases houter with ha | ha
    · rcases hinner j with hb | hb
      · left; rw [show drawFace mvp model light f s =
          draw_triangle (projectVert mvp (shadedOf model light f) (cube_verts (cube_quads f 0)))
            (projectVert mvp (shadedOf model light f) (cube_verts (cube_quads f 2)))
            (projectVert mvp (shadedOf model light f) (cube_verts (cube_quads f 3)))
            (draw_triangle (projectVert mvp (shadedOf model light f) (cube_verts (cube_quads f 0)))
              (projectVert mvp (shadedOf model light f) (cube_verts (cube_quads f 1)))
              (projectVert mvp (shadedOf model light f) (cube_verts (cube_quads f 2))) s)
          from rfl, ha, hb]
      · right; rw [show drawFace mvp model light f s =
          draw_triangle (projectVert mvp (shadedOf model light f) (cube_verts (cube_quads f 0)))
            (projectVert mvp (shadedOf model light f) (cube_verts (cube_quads f 2)))
            (projectVert mvp (shadedOf model light f) (cube_verts (cube_quads f 3)))
            (draw_triangle (projectVert mvp (shadedOf model light f) (cube_verts (cube_quads f 0)))
              (projectVert mvp (shadedOf model light f) (cube_verts (cube_quads f 1)))
              (projectVert mvp (shadedOf model light f) (cube_verts (cube_quads f 2))) s)
          from rfl, ha, hb]
    · right; rw [show drawFace mvp model light f s =
        draw_triangle (projectVert mvp (shadedOf model light f) (cube_verts (cube_quads f 0)))
          (projectVert mvp (shadedOf model light f) (cube_verts (cube_quads f 2)))
          (projectVert mvp (shadedOf model light f) (cube_verts (cube_quads f 3)))
          (draw_triangle (projectVert mvp (shadedOf model light f) (cube_verts (cube_quads f 0)))
            (projectVert mvp (shadedOf model light f) (cube_verts (cube_quads f 1)))
            (projectVert mvp (shadedOf model light f) (cube_verts (cube_quads f 2))) s)
        from rfl, ha]

/-- Witness for C8 with the identity model matrix, the unit light
direction (1, 0, 0) and the first face. -/
theorem draw_cube_flat_shading_witness :
    (3 : ℝ) / 20 ≤ diffuseOf ⟨1, 0, 0, 0, 0, 1, 0, 0, 0, 0, 1, 0, 0, 0, 0, 1⟩ ⟨1, 0, 0⟩ 0 :=
  (draw_cube_flat_shading ⟨1, 0, 0, 0, 0, 1, 0, 0, 0, 0, 1, 0, 0, 0, 0, 1⟩ ⟨1, 0, 0⟩ 0
    (by norm_num [vec3d.dot])).2.2.1

end Renderer
